import Mathlib

/-!
# Verification of the review-store worker (gh-ai-proxy)

A shallow embedding of the Cloudflare Worker in `src/worker.ts` together with
its KV codec helpers (`src/utils/kv.ts`).  The persisted state is the byte
blob stored under the single KV key `"reviews"`; the codec
(`putJsonUtf8`/`getJsonUtf8`) is modelled down to UTF-8 bytes, with
`JSON.stringify`/`JSON.parse` modelled by a serializer for review
collections and a parser that accepts the canonical serialized form
(`JSON.parse` is more lenient — e.g. it tolerates whitespace and accepts
non-array JSON values, which the TypeScript code then mishandles
dynamically; those non-canonical inputs are outside the scope of the
claims checked here).
-/

namespace GhAiProxy

/-! ## UTF-8 byte layer

`TextEncoder.encode` / `TextDecoder("utf-8").decode` from `kv.ts`.
Bytes are `Nat`s below 256; codepoints are Unicode scalar values (Lean
`Char`).  The decoder rejects ill-formed sequences (the real
`TextDecoder` in non-fatal mode substitutes U+FFFD instead; no claim
depends on ill-formed byte input to the decoder). -/

/-- UTF-8 encoding of one Unicode scalar value `n` (1–4 bytes). -/
def utf8EncodeCp (n : Nat) : List Nat :=
  if n < 128 then [n]
  else if n < 2048 then [192 + n / 64, 128 + n % 64]
  else if n < 65536 then [224 + n / 4096, 128 + n / 64 % 64, 128 + n % 64]
  else [240 + n / 262144, 128 + n / 4096 % 64, 128 + n / 64 % 64, 128 + n % 64]

/-- `TextEncoder.encode`: UTF-8 bytes of a string. -/
def utf8Encode (s : String) : List Nat :=
  (s.data.map (fun c => utf8EncodeCp c.toNat)).flatten

/-- Decode a 2-byte UTF-8 sequence tail (lead byte `b` in 194–223). -/
def utf8Cont1 (b : Nat) : List Nat → Option (Nat × List Nat)
  | b1 :: bs1 =>
    if 128 ≤ b1 ∧ b1 < 192 then some ((b - 192) * 64 + (b1 - 128), bs1) else none
  | [] => none

/-- Decode a 3-byte UTF-8 sequence tail (lead byte `b` in 224–239),
rejecting overlong forms and surrogates. -/
def utf8Cont2 (b : Nat) : List Nat → Option (Nat × List Nat)
  | b1 :: b2 :: bs2 =>
    if 128 ≤ b1 ∧ b1 < 192 ∧ 128 ≤ b2 ∧ b2 < 192 then
      let n := (b - 224) * 4096 + (b1 - 128) * 64 + (b2 - 128)
      if 2048 ≤ n ∧ ¬ (55296 ≤ n ∧ n < 57344) then some (n, bs2) else none
    else none
  | _ => none

/-- Decode a 4-byte UTF-8 sequence tail (lead byte `b` in 240–244),
rejecting overlong and out-of-range forms. -/
def utf8Cont3 (b : Nat) : List Nat → Option (Nat × List Nat)
  | b1 :: b2 :: b3 :: bs3 =>
    if 128 ≤ b1 ∧ b1 < 192 ∧ 128 ≤ b2 ∧ b2 < 192 ∧ 128 ≤ b3 ∧ b3 < 192 then
      let n := (b - 240) * 262144 + (b1 - 128) * 4096 + (b2 - 128) * 64 + (b3 - 128)
      if 65536 ≤ n ∧ n < 1114112 then some (n, bs3) else none
    else none
  | _ => none

/-- Decode one scalar value from the front of a byte list. -/
def utf8DecodeOne : List Nat → Option (Nat × List Nat)
  | [] => none
  | b :: bs =>
    if b < 128 then some (b, bs)
    else if 194 ≤ b ∧ b < 224 then utf8Cont1 b bs
    else if 224 ≤ b ∧ b < 240 then utf8Cont2 b bs
    else if 240 ≤ b ∧ b < 245 then utf8Cont3 b bs
    else none

/-- Fuel-bounded decoding loop (each step consumes at least one byte, so
fuel equal to the byte count always suffices). -/
def utf8DecodeLoop : Nat → List Nat → Option (List Nat)
  | _, [] => some []
  | 0, _ :: _ => none
  | fuel + 1, b :: bs =>
    match utf8DecodeOne (b :: bs) with
    | some (n, rest) => (utf8DecodeLoop fuel rest).map (fun cs => n :: cs)
    | none => none

/-- UTF-8 decoding to a list of scalar values, rejecting ill-formed input. -/
def utf8DecodeCps (bs : List Nat) : Option (List Nat) :=
  utf8DecodeLoop bs.length bs

/-- `TextDecoder("utf-8").decode` (strict on ill-formed input). -/
def utf8Decode (bs : List Nat) : Option String :=
  (utf8DecodeCps bs).map (fun cps => String.mk (cps.map Char.ofNat))

/-- Byte image of a list of characters (the body of `utf8Encode`). -/
def utf8EncodeChars (cs : List Char) : List Nat :=
  (cs.map (fun c => utf8EncodeCp c.toNat)).flatten

/-! ## JSON number layer

`JSON.stringify` prints review ratings (integers in this model; see the
data-model note on `Review.rating`) in plain decimal; the parser reads an
optional minus sign and a maximal digit run. -/

/-- Decimal digit character `d` (for `d < 10`). -/
def decDigitChar (d : Nat) : Char := Char.ofNat (48 + d)

/-- Little-endian decimal digits of `n`, fuel-bounded. -/
def natDigitsRev : Nat → Nat → List Char
  | 0, _ => []
  | fuel + 1, n => if n = 0 then [] else decDigitChar (n % 10) :: natDigitsRev fuel (n / 10)

/-- Decimal text of a natural number. -/
def printNat (n : Nat) : List Char :=
  if n = 0 then ['0'] else (natDigitsRev (n + 1) n).reverse

/-- Decimal text of an integer. -/
def printInt : Int → List Char
  | .ofNat n => printNat n
  | .negSucc n => '-' :: printNat (n + 1)

def isDigit10 (c : Char) : Bool := 48 ≤ c.toNat && c.toNat ≤ 57

/-- Value of a big-endian digit-character run. -/
def digitsValBE (cs : List Char) : Nat := cs.foldl (fun a c => 10 * a + (c.toNat - 48)) 0

/-- Value of a little-endian digit-character run. -/
def digitsValLE : List Char → Nat
  | [] => 0
  | c :: cs => (c.toNat - 48) + 10 * digitsValLE cs

/-- Read a maximal digit run from the front. -/
def parseNat (cs : List Char) : Option (Nat × List Char) :=
  let ds := cs.takeWhile isDigit10
  if ds.isEmpty then none else some (digitsValBE ds, cs.dropWhile isDigit10)

/-- Read an optionally negated decimal integer from the front. -/
def parseInt : List Char → Option (Int × List Char)
  | [] => none
  | c :: cs =>
    if c = '-' then (parseNat cs).map (fun p => (-(p.1 : Int), p.2))
    else (parseNat (c :: cs)).map (fun p => ((p.1 : Int), p.2))

/-! ## JSON string layer

String escaping as `JSON.stringify` performs it (`"` and `\` escaped,
control characters via short escapes or `\u00XX`, everything else
literal), and the inverse string-literal reader.  The reader also accepts
the `\/` escape; `\uXXXX` surrogate-pair escapes (which `JSON.parse`
combines) are not modelled — the serializer never emits them. -/

/-- Lowercase hex digit character `d` (for `d < 16`). -/
def hexDigitChar (d : Nat) : Char :=
  if d < 10 then Char.ofNat (48 + d) else Char.ofNat (87 + d)

/-- `JSON.stringify` escaping of one character. -/
def escapeChar (c : Char) : List Char :=
  if c = '"' then ['\\', '"']
  else if c = '\\' then ['\\', '\\']
  else if c.toNat < 32 then
    if c.toNat = 8 then ['\\', 'b']
    else if c.toNat = 9 then ['\\', 't']
    else if c.toNat = 10 then ['\\', 'n']
    else if c.toNat = 12 then ['\\', 'f']
    else if c.toNat = 13 then ['\\', 'r']
    else ['\\', 'u', '0', '0', hexDigitChar (c.toNat / 16), hexDigitChar (c.toNat % 16)]
  else [c]

/-- Escaped text of a character list. -/
def escapeChars (l : List Char) : List Char := (l.map escapeChar).flatten

/-- Escaped text of a string. -/
def escapeString (s : String) : List Char := escapeChars s.data

/-- `JSON.stringify` of a string value: quoted escaped text. -/
def quoteString (s : String) : List Char := '"' :: (escapeString s ++ ['"'])

/-- Hex digit value. -/
def hexVal (c : Char) : Option Nat :=
  if 48 ≤ c.toNat ∧ c.toNat ≤ 57 then some (c.toNat - 48)
  else if 97 ≤ c.toNat ∧ c.toNat ≤ 102 then some (c.toNat - 87)
  else if 65 ≤ c.toNat ∧ c.toNat ≤ 70 then some (c.toNat - 55)
  else none

/-- Read a `\uXXXX` escape tail (after the `\u`), producing one character. -/
def readHex4 : List Char → Option (Option Char × List Char)
  | h1 :: h2 :: h3 :: h4 :: cs =>
    match hexVal h1, hexVal h2, hexVal h3, hexVal h4 with
    | some v1, some v2, some v3, some v4 =>
      let n := 4096 * v1 + 256 * v2 + 16 * v3 + v4
      if n < 55296 ∨ (57343 < n ∧ n < 1114112) then some (some (Char.ofNat n), cs)
      else none
    | _, _, _, _ => none
  | _ => none

/-- Read one escape sequence (after the backslash). -/
def readEscape : List Char → Option (Option Char × List Char)
  | [] => none
  | e :: cs =>
    if e = '"' then some (some '"', cs)
    else if e = '\\' then some (some '\\', cs)
    else if e = '/' then some (some '/', cs)
    else if e = 'b' then some (some (Char.ofNat 8), cs)
    else if e = 't' then some (some (Char.ofNat 9), cs)
    else if e = 'n' then some (some (Char.ofNat 10), cs)
    else if e = 'f' then some (some (Char.ofNat 12), cs)
    else if e = 'r' then some (some (Char.ofNat 13), cs)
    else if e = 'u' then readHex4 cs
    else none

/-- Read one string-literal item: `some (none, rest)` when the closing
quote was consumed, `some (some c, rest)` for one content character. -/
def readStringChar : List Char → Option (Option Char × List Char)
  | [] => none
  | c :: cs =>
    if c = '"' then some (none, cs)
    else if c = '\\' then readEscape cs
    else if c.toNat < 32 then none
    else some (some c, cs)

/-- Fuel-bounded string-literal body reader (stops at the closing quote). -/
def parseStringLoop : Nat → List Char → Option (List Char × List Char)
  | 0, _ => none
  | fuel + 1, cs =>
    match readStringChar cs with
    | some (none, rest) => some ([], rest)
    | some (some c, rest) => (parseStringLoop fuel rest).map (fun p => (c :: p.1, p.2))
    | none => none

/-- Read a JSON string literal from the front. -/
def parseStringLit : List Char → Option (String × List Char)
  | [] => none
  | c :: cs =>
    if c = '"' then (parseStringLoop (cs.length + 1) cs).map (fun p => (String.mk p.1, p.2))
    else none

/-! ## Review collections and their JSON text

`Review` is the record interface of `worker.ts` (`name`, `text`,
`rating`, optional `date`).  Ratings are modelled as integers per the
data model (`rating: integer`); JavaScript numbers are doubles, but no
code path constructs or checks a non-integer rating.

`stringifyReviews` is `JSON.stringify` on a review array: objects print
their properties in creation order (`name`, `text`, `rating`, then
`date` when present — absent properties are omitted), arrays print as
comma-separated items in brackets with no whitespace.  `parseReviews`
reads exactly this canonical serialized form back. -/

structure Review where
  name : String
  text : String
  rating : Int
  date : Option String
deriving DecidableEq

/-- The `{` character (written by codepoint). -/
def lbrace : Char := Char.ofNat 123

/-- The `}` character (written by codepoint). -/
def rbrace : Char := Char.ofNat 125

/-- `JSON.stringify` of one review object. -/
def stringifyReview (r : Review) : List Char :=
  lbrace :: ("\"name\":".data ++ quoteString r.name
    ++ ",\"text\":".data ++ quoteString r.text
    ++ ",\"rating\":".data ++ printInt r.rating
    ++ (match r.date with
        | none => []
        | some d => ",\"date\":".data ++ quoteString d)
    ++ [rbrace])

/-- Comma-separated review objects (array body). -/
def stringifyReviewItems : List Review → List Char
  | [] => []
  | [r] => stringifyReview r
  | r :: r2 :: rs => stringifyReview r ++ ',' :: stringifyReviewItems (r2 :: rs)

/-- `JSON.stringify` of a review array. -/
def stringifyReviews (rs : List Review) : List Char :=
  '[' :: (stringifyReviewItems rs ++ [']'])

/-- Consume an expected literal character sequence. -/
def dropLit : List Char → List Char → Option (List Char)
  | [], cs => some cs
  | _ :: _, [] => none
  | p :: ps, c :: cs => if c = p then dropLit ps cs else none

/-- Read the `}` or `,"date":"…"}` tail of a review object, the date
string already parsed. -/
def parseObjClose (name text : String) (rating : Int) (date : String) :
    List Char → Option (Review × List Char)
  | c :: cs => if c = rbrace then some (⟨name, text, rating, some date⟩, cs) else none
  | [] => none

/-- Read the end of a review object after the rating: either `}` (no
date property) or `,"date":` followed by a string and `}`. -/
def parseObjEnd (name text : String) (rating : Int) :
    List Char → Option (Review × List Char)
  | c :: cs =>
    if c = rbrace then some (⟨name, text, rating, none⟩, cs)
    else if c = ',' then
      (dropLit "\"date\":".data cs).bind fun cs8 =>
      (parseStringLit cs8).bind fun pd =>
      parseObjClose name text rating pd.1 pd.2
    else none
  | [] => none

/-- Read one review object from the front. -/
def parseReviewObj (cs : List Char) : Option (Review × List Char) :=
  (dropLit (lbrace :: "\"name\":".data) cs).bind fun cs1 =>
  (parseStringLit cs1).bind fun p1 =>
  (dropLit ",\"text\":".data p1.2).bind fun cs3 =>
  (parseStringLit cs3).bind fun p2 =>
  (dropLit ",\"rating\":".data p2.2).bind fun cs5 =>
  (parseInt cs5).bind fun p3 =>
  parseObjEnd p1.1 p2.1 p3.1 p3.2

/-- After one parsed review, read `]` (end of array) or `,` and more items. -/
def parseItemsStep (r : Review) (next : List Char → Option (List Review × List Char)) :
    List Char → Option (List Review × List Char)
  | ']' :: cs2 => some ([r], cs2)
  | ',' :: cs2 => (next cs2).map (fun q => (r :: q.1, q.2))
  | _ => none

/-- Fuel-bounded reader for a non-empty array body up to and including `]`. -/
def parseItemsLoop : Nat → List Char → Option (List Review × List Char)
  | 0, _ => none
  | fuel + 1, cs =>
    (parseReviewObj cs).bind fun p => parseItemsStep p.1 (parseItemsLoop fuel) p.2

/-- `JSON.parse` on the canonical serialization of a review array,
rejecting everything else (the real `JSON.parse` also accepts
whitespace-padded text and arbitrary JSON values — such values are then
cast unchecked by the TypeScript code; they are outside this model). -/
def parseReviews (s : String) : Option (List Review) :=
  match s.data with
  | '[' :: ']' :: rest => if rest.isEmpty then some [] else none
  | '[' :: cs =>
    (match parseItemsLoop (cs.length + 1) cs with
     | some (rs, []) => some rs
     | _ => none)
  | _ => none

/-- `putJsonUtf8` (kv.ts): `encoder.encode(JSON.stringify(obj))`. -/
def putJsonUtf8 (rs : List Review) : List Nat :=
  utf8Encode (String.mk (stringifyReviews rs))

/-- `getJsonUtf8` (kv.ts): absent value (`null`) maps to `ok none`;
otherwise `JSON.parse(decoder.decode(raw))`, whose failure is a thrown
`SyntaxError`, modelled as `Except.error ()`.  (A decoder failure cannot
throw in JavaScript — `TextDecoder` substitutes U+FFFD — but every claim
below concerns byte blobs that are either well-formed UTF-8 or absent.) -/
def getJsonUtf8 : Option (List Nat) → Except Unit (Option (List Review))
  | none => .ok none
  | some raw =>
    match utf8Decode raw with
    | none => .error ()
    | some s =>
      match parseReviews s with
      | some rs => .ok (some rs)
      | none => .error ()

/-! ## Worker state, requests and responses

The KV namespace holds one byte blob under the key `"reviews"`
(`none` = key absent).  Each `json(...)` construction site in
`worker.ts` builds an object literal of a fixed shape; those shapes are
the constructors of `RespBody`.  An `Outcome` is either a returned
`Response` or an exception escaping the `fetch` entrypoint
(`crash`); it also records the store contents afterwards and whether a
`kv.put` was performed. -/

/-- The byte blob stored under the KV key `"reviews"`. -/
abbrev KVState := Option (List Nat)

/-- JSON bodies built by the `json(...)` helper, one constructor per
construction site shape. -/
inductive RespBody
  | empty
  | textBody (s : String)
  | health (proxyTo defaultModel version : String)
  | okReviews (rs : List Review)
  | okReview (r : Review)
  | okMessage (message : String)
  | errEnvelope (error : String)
  | upstreamBody (text : String)
deriving DecidableEq

/-- An HTTP response: status code and body. -/
structure Resp where
  status : Nat
  body : RespBody
deriving DecidableEq

/-- Result of handling a request: a response, or an exception escaping
the `fetch` entrypoint; both record the store state afterwards.
`wrote` is true when the handler performed a `kv.put`. -/
inductive Outcome
  | resp (r : Resp) (store : KVState) (wrote : Bool)
  | crash (store : KVState)
deriving DecidableEq

/-- Store blob after the outcome. -/
def Outcome.store : Outcome → KVState
  | .resp _ s _ => s
  | .crash s => s

/-- Status code of the response, if one was returned. -/
def Outcome.statusOf : Outcome → Option Nat
  | .resp r _ _ => some r.status
  | .crash _ => none

/-- Fields read from a parsed JSON request body (`Partial<Review>` for
POST, `{name?}` for DELETE; both read the same parsed object).
`none` models an absent property. -/
structure BodyFields where
  name : Option String
  text : Option String
  rating : Option Int
  date : Option String
deriving DecidableEq

/-- JavaScript falsiness of an optional string property (`!x`):
absent (`undefined`) or the empty string. -/
def strFalsy : Option String → Bool
  | none => true
  | some s => s == ""

/-- `String.prototype.toLowerCase`, modelled on the ASCII range (ASCII
uppercase letters mapped down, every other character unchanged; Unicode
simple case mappings beyond ASCII are outside this model). -/
def jsToLower (s : String) : String := String.mk (s.data.map Char.toLower)

/-- The keep-predicate of `handleDeleteReview`'s filter:
`r.name?.toLowerCase() !== body.name.toLowerCase()`. -/
def deleteKeep (q : String) (r : Review) : Bool := jsToLower r.name != jsToLower q

/-- The three fixed seed records (`worker.ts` `handleGetReviews`),
texts verbatim. -/
def seed : List Review :=
  [ { name := "Jennifer D."
    , text := "My 3 children went to Deebas Daycare over the past 16yrs. They are like family to us. They always took excellent care of my children and my children love them. They are wonderful people and an amazing Daycare. I highly recommend Deebas Daycare!"
    , rating := 5
    , date := none }
  , { name := ""
    , text := "We are very grateful for the care and support provided to our son by Deeba’s daycare. He was there from the age of 4 months until he started kindergarten. They did a fantastic job of preparing him for school."
    , rating := 5
    , date := none }
  , { name := ""
    , text := "I highly recommend Deeba’s daycare. My son loves it there. They are loving and provide exceptional care!"
    , rating := 5
    , date := none } ]

/-- `handleGetReviews` (`worker.ts` 115–143).  Reads the collection; if
absent (`null`) or empty it persists and returns the seed records.
This handler has no `try`/`catch`: a `JSON.parse` failure inside
`getJsonUtf8` propagates out as a thrown exception (`crash`). -/
def handleGetReviews (kv : KVState) : Outcome :=
  match getJsonUtf8 kv with
  | .error _ => .crash kv
  | .ok stored =>
    match stored with
    | none => .resp ⟨200, .okReviews seed⟩ (some (putJsonUtf8 seed)) true
    | some rs =>
      if rs.length = 0 then .resp ⟨200, .okReviews seed⟩ (some (putJsonUtf8 seed)) true
      else .resp ⟨200, .okReviews rs⟩ kv false

/-- `handlePostReview` (`worker.ts` 149–177).  `now` is the value of
`new Date().toISOString()`.  The whole body is wrapped in
`try`/`catch` → 500 `"Server error"`; a request body that is not valid
JSON (`req.json()` throws) is modelled as `body = none`. -/
def handlePostReview (now : String) (body : Option BodyFields) (kv : KVState) : Outcome :=
  match body with
  | none => .resp ⟨500, .errEnvelope "Server error"⟩ kv false
  | some b =>
    if strFalsy b.name || strFalsy b.text then
      .resp ⟨400, .errEnvelope "Missing name or text"⟩ kv false
    else
      let newReview : Review :=
        { name := b.name.getD "", text := b.text.getD ""
        , rating := b.rating.getD 5, date := some now }
      match getJsonUtf8 kv with
      | .error _ => .resp ⟨500, .errEnvelope "Server error"⟩ kv false
      | .ok stored =>
        .resp ⟨200, .okReview newReview⟩
          (some (putJsonUtf8 (newReview :: stored.getD []))) true

/-- `handleDeleteReview` (`worker.ts` 183–216).  Wrapped in
`try`/`catch` → 500 with the thrown error's message (that message text
comes from the runtime's `SyntaxError` and is abstracted here as fixed
placeholder strings; no claim inspects it). -/
def handleDeleteReview (body : Option BodyFields) (kv : KVState) : Outcome :=
  match body with
  | none => .resp ⟨500, .errEnvelope "Unknown server error"⟩ kv false
  | some b =>
    match b.name with
    | none => .resp ⟨400, .errEnvelope "Missing name field"⟩ kv false
    | some q =>
      if q = "" then .resp ⟨400, .errEnvelope "Missing name field"⟩ kv false
      else
        match getJsonUtf8 kv with
        | .error _ => .resp ⟨500, .errEnvelope "SyntaxError"⟩ kv false
        | .ok stored =>
          let reviews := stored.getD []
          let filtered := reviews.filter (deleteKeep q)
          if filtered.length = reviews.length then
            .resp ⟨404, .errEnvelope ("No reviews found for " ++ q)⟩ kv false
          else
            .resp ⟨200, .okMessage ("Deleted "
                ++ toString (reviews.length - filtered.length)
                ++ " review(s) for " ++ q)⟩
              (some (putJsonUtf8 filtered)) true

/-- An inbound request: method, path, and the result of parsing its
body as JSON (`none` when `req.json()` would throw). -/
structure ReqModel where
  method : String
  path : String
  bodyJson : Option BodyFields
deriving DecidableEq

/-- Outcome of the outbound GitHub Models call: response status and
text, or a transport failure with an error message. -/
abbrev Upstream := Except String (Nat × String)

def GH_MODELS_URL : String := "https://models.github.ai/inference/chat/completions"

def GH_API_VERSION : String := "2022-11-28"

def DEFAULT_MODEL : String := "microsoft/phi-4-mini-instruct"

/-- The `fetch` entrypoint (`worker.ts` 21–105): CORS preflight, health
check, the three `/reviews` routes, the proxy fallthrough for other
POSTs (whose `try`/`catch` turns a transport failure into a 500
envelope), and 404 otherwise.  Only the proxy branch is wrapped in
`try`/`catch`: a crash from `handleGetReviews` escapes. -/
def fetchModel (now : String) (upstream : Upstream) (req : ReqModel) (kv : KVState) : Outcome :=
  if req.method = "OPTIONS" then .resp ⟨204, .empty⟩ kv false
  else if req.method = "GET" ∧ req.path = "/" then
    .resp ⟨200, .health GH_MODELS_URL DEFAULT_MODEL GH_API_VERSION⟩ kv false
  else if req.path = "/reviews" ∧ req.method = "DELETE" then
    handleDeleteReview req.bodyJson kv
  else if req.path = "/reviews" ∧ req.method = "GET" then
    handleGetReviews kv
  else if req.path = "/reviews" ∧ req.method = "POST" then
    handlePostReview now req.bodyJson kv
  else if req.method = "POST" then
    match upstream with
    | .ok p => .resp ⟨p.1, .upstreamBody p.2⟩ kv false
    | .error msg => .resp ⟨500, .errEnvelope msg⟩ kv false
  else .resp ⟨404, .textBody "Not Found"⟩ kv false

/-- The review list currently denoted by a store blob (absent treated
as empty, as the handlers do), when the blob decodes. -/
def storeReviews (kv : KVState) : Option (List Review) :=
  match getJsonUtf8 kv with
  | .ok st => some (st.getD [])
  | .error _ => none

/-! ## Properties -/

theorem char_toNat_valid (c : Char) :
    c.toNat < 55296 ∨ (57343 < c.toNat ∧ c.toNat < 1114112) := by
  have h := c.valid
  rcases h with h | h
  · exact Or.inl h
  · exact Or.inr h

theorem utf8EncodeCp_length_pos (n : Nat) : 1 ≤ (utf8EncodeCp n).length := by
  unfold utf8EncodeCp
  split_ifs <;> simp

theorem utf8DecodeOne_encode (c : Char) (rest : List Nat) :
    utf8DecodeOne (utf8EncodeCp c.toNat ++ rest) = some (c.toNat, rest) := by
  have hv := char_toNat_valid c
  generalize c.toNat = n at hv ⊢
  by_cases h1 : n < 128
  · have e : utf8EncodeCp n = [n] := by unfold utf8EncodeCp; rw [if_pos h1]
    rw [e]
    show utf8DecodeOne (n :: rest) = _
    simp only [utf8DecodeOne]
    rw [if_pos h1]
  · by_cases h2 : n < 2048
    · have e : utf8EncodeCp n = [192 + n / 64, 128 + n % 64] := by
        unfold utf8EncodeCp
        rw [if_neg h1, if_pos h2]
      rw [e]
      show utf8DecodeOne ((192 + n / 64) :: (128 + n % 64) :: rest) = _
      simp only [utf8DecodeOne]
      rw [if_neg (by omega), if_pos (by omega)]
      have hval : (192 + n / 64 - 192) * 64 + (128 + n % 64 - 128) = n := by omega
      simp only [utf8Cont1]
      rw [if_pos (by omega), hval]
    · by_cases h3 : n < 65536
      · have e : utf8EncodeCp n = [224 + n / 4096, 128 + n / 64 % 64, 128 + n % 64] := by
          unfold utf8EncodeCp
          rw [if_neg h1, if_neg h2, if_pos h3]
        rw [e]
        show utf8DecodeOne ((224 + n / 4096) :: (128 + n / 64 % 64) :: (128 + n % 64) :: rest) = _
        simp only [utf8DecodeOne]
        rw [if_neg (by omega), if_neg (by omega), if_pos (by omega)]
        have hval : (224 + n / 4096 - 224) * 4096 + (128 + n / 64 % 64 - 128) * 64
            + (128 + n % 64 - 128) = n := by omega
        simp only [utf8Cont2]
        rw [if_pos (by omega), hval, if_pos (by omega)]
      · have e : utf8EncodeCp n
            = [240 + n / 262144, 128 + n / 4096 % 64, 128 + n / 64 % 64, 128 + n % 64] := by
          unfold utf8EncodeCp
          rw [if_neg h1, if_neg h2, if_neg h3]
        rw [e]
        show utf8DecodeOne ((240 + n / 262144) :: (128 + n / 4096 % 64) ::
              (128 + n / 64 % 64) :: (128 + n % 64) :: rest) = _
        simp only [utf8DecodeOne]
        rw [if_neg (by omega), if_neg (by omega), if_neg (by omega), if_pos (by omega)]
        have hval : (240 + n / 262144 - 240) * 262144 + (128 + n / 4096 % 64 - 128) * 4096
            + (128 + n / 64 % 64 - 128) * 64 + (128 + n % 64 - 128) = n := by omega
        simp only [utf8Cont3]
        rw [if_pos (by omega), hval, if_pos (by omega)]

theorem utf8DecodeLoop_encodeChars (cs : List Char) :
    ∀ fuel, (utf8EncodeChars cs).length ≤ fuel →
      utf8DecodeLoop fuel (utf8EncodeChars cs) = some (cs.map Char.toNat) := by
  induction cs with
  | nil =>
      intro fuel _
      cases fuel <;> rfl
  | cons c cs ih =>
      intro fuel hfuel
      have hbytes : utf8EncodeChars (c :: cs)
          = utf8EncodeCp c.toNat ++ utf8EncodeChars cs := by
        simp [utf8EncodeChars]
      have hlen1 : 1 ≤ (utf8EncodeCp c.toNat).length := utf8EncodeCp_length_pos _
      rw [hbytes] at hfuel ⊢
      rw [List.length_append] at hfuel
      obtain ⟨fuel', rfl⟩ : ∃ f, fuel = f + 1 := by
        cases fuel with
        | zero => omega
        | succ f => exact ⟨f, rfl⟩
      obtain ⟨b, bs, hcons⟩ : ∃ b bs, utf8EncodeCp c.toNat ++ utf8EncodeChars cs = b :: bs := by
        cases h : utf8EncodeCp c.toNat ++ utf8EncodeChars cs with
        | nil =>
            exfalso
            have := List.length_append (utf8EncodeCp c.toNat) (utf8EncodeChars cs)
            rw [h] at this
            simp at this
            omega
        | cons b bs => exact ⟨b, bs, rfl⟩
      rw [hcons]
      rw [utf8DecodeLoop]
      rw [← hcons, utf8DecodeOne_encode]
      show Option.map (fun l => c.toNat :: l) (utf8DecodeLoop fuel' (utf8EncodeChars cs))
          = some (List.map Char.toNat (c :: cs))
      rw [ih fuel' (by omega)]
      rfl

theorem utf8DecodeCps_utf8Encode (s : String) :
    utf8DecodeCps (utf8Encode s) = some (s.data.map Char.toNat) := by
  have h : utf8Encode s = utf8EncodeChars s.data := rfl
  rw [utf8DecodeCps, h]
  exact utf8DecodeLoop_encodeChars s.data _ le_rfl

theorem utf8Decode_utf8Encode (s : String) : utf8Decode (utf8Encode s) = some s := by
  rw [utf8Decode, utf8DecodeCps_utf8Encode]
  rcases s with ⟨data⟩
  show some (String.mk ((data.map Char.toNat).map Char.ofNat)) = some (String.mk data)
  rw [List.map_map]
  have h : data.map (Char.ofNat ∘ Char.toNat) = data := by
    induction data with
    | nil => rfl
    | cons c cs ih => simp [ih, Char.ofNat_toNat]
  rw [h]

theorem decDigitChar_toNat (d : Nat) (h : d < 10) : (decDigitChar d).toNat = 48 + d := by
  interval_cases d <;> rfl

theorem decDigitChar_isDigit (d : Nat) (h : d < 10) : isDigit10 (decDigitChar d) = true := by
  interval_cases d <;> rfl

theorem isDigit10_ne_minus (c : Char) (h : isDigit10 c = true) : ¬ c = '-' := by
  intro hc
  subst hc
  simp [isDigit10] at h

theorem natDigitsRev_digits :
    ∀ fuel n, ∀ c ∈ natDigitsRev fuel n, isDigit10 c = true := by
  intro fuel
  induction fuel with
  | zero => intro n c hc; simp [natDigitsRev] at hc
  | succ fuel ih =>
      intro n c hc
      rw [natDigitsRev] at hc
      by_cases h0 : n = 0
      · rw [if_pos h0] at hc; simp at hc
      · rw [if_neg h0] at hc
        rcases List.mem_cons.mp hc with h | h
        · subst h; exact decDigitChar_isDigit _ (Nat.mod_lt _ (by omega))
        · exact ih _ c h

theorem natDigitsRev_val :
    ∀ fuel n, n ≤ fuel → digitsValLE (natDigitsRev fuel n) = n := by
  intro fuel
  induction fuel with
  | zero => intro n h; interval_cases n; rfl
  | succ fuel ih =>
      intro n h
      rw [natDigitsRev]
      by_cases h0 : n = 0
      · rw [if_pos h0, h0]; rfl
      · rw [if_neg h0]
        rw [digitsValLE]
        rw [decDigitChar_toNat _ (Nat.mod_lt _ (by omega))]
        rw [ih (n / 10) (by omega)]
        omega

theorem digitsValBE_append_one (xs : List Char) (c : Char) :
    digitsValBE (xs ++ [c]) = 10 * digitsValBE xs + (c.toNat - 48) := by
  simp [digitsValBE, List.foldl_append]

theorem digitsValBE_reverse (cs : List Char) : digitsValBE cs.reverse = digitsValLE cs := by
  induction cs with
  | nil => rfl
  | cons c cs ih =>
      rw [List.reverse_cons, digitsValBE_append_one, ih, digitsValLE]
      omega

theorem printNat_digits (n : Nat) : ∀ c ∈ printNat n, isDigit10 c = true := by
  intro c hc
  rw [printNat] at hc
  by_cases h0 : n = 0
  · rw [if_pos h0] at hc
    simp at hc
    subst hc; rfl
  · rw [if_neg h0] at hc
    rw [List.mem_reverse] at hc
    exact natDigitsRev_digits _ _ c hc

theorem printNat_ne_nil (n : Nat) : printNat n ≠ [] := by
  rw [printNat]
  by_cases h0 : n = 0
  · rw [if_pos h0]; simp
  · rw [if_neg h0]
    simp only [ne_eq, List.reverse_eq_nil_iff]
    rw [natDigitsRev, if_neg h0]
    simp

theorem printNat_val (n : Nat) : digitsValBE (printNat n) = n := by
  rw [printNat]
  by_cases h0 : n = 0
  · rw [if_pos h0, h0]; rfl
  · rw [if_neg h0, digitsValBE_reverse, natDigitsRev_val (n + 1) n (by omega)]

theorem takeWhile_digits_append (ds rest : List Char)
    (hds : ∀ c ∈ ds, isDigit10 c = true)
    (hrest : ∀ c, rest.head? = some c → isDigit10 c = false) :
    (ds ++ rest).takeWhile isDigit10 = ds ∧ (ds ++ rest).dropWhile isDigit10 = rest := by
  induction ds with
  | nil =>
      simp only [List.nil_append]
      cases rest with
      | nil => exact ⟨rfl, rfl⟩
      | cons c r =>
          have hc : isDigit10 c = false := hrest c rfl
          rw [List.takeWhile_cons, List.dropWhile_cons, hc]
          exact ⟨rfl, rfl⟩
  | cons d ds ih =>
      have hd : isDigit10 d = true := hds d (List.mem_cons_self d ds)
      have ih' := ih (fun c hc => hds c (List.mem_cons_of_mem d hc))
      rw [List.cons_append, List.takeWhile_cons, List.dropWhile_cons, hd]
      simp only [if_true]
      exact ⟨by rw [ih'.1], ih'.2⟩

theorem parseNat_print (n : Nat) (rest : List Char)
    (hrest : ∀ c, rest.head? = some c → isDigit10 c = false) :
    parseNat (printNat n ++ rest) = some (n, rest) := by
  have h := takeWhile_digits_append (printNat n) rest (printNat_digits n) hrest
  rw [parseNat]
  simp only [h.1, h.2]
  rw [if_neg (by simp [List.isEmpty_iff, printNat_ne_nil n])]
  rw [printNat_val]

theorem parseInt_print (i : Int) (rest : List Char)
    (hrest : ∀ c, rest.head? = some c → isDigit10 c = false) :
    parseInt (printInt i ++ rest) = some (i, rest) := by
  cases i with
  | ofNat n =>
      obtain ⟨d, ds, hds⟩ : ∃ d ds, printNat n = d :: ds := by
        cases h : printNat n with
        | nil => exact absurd h (printNat_ne_nil n)
        | cons d ds => exact ⟨d, ds, rfl⟩
      have hd : isDigit10 d = true := by
        apply printNat_digits n
        rw [hds]; exact List.mem_cons_self d ds
      rw [printInt, hds, List.cons_append, parseInt]
      rw [if_neg (isDigit10_ne_minus d hd)]
      rw [← List.cons_append, ← hds, parseNat_print n rest hrest]
      rfl
  | negSucc n =>
      rw [printInt, List.cons_append, parseInt, if_pos rfl]
      rw [parseNat_print (n + 1) rest hrest]
      simp [Int.negSucc_eq]

theorem hexVal_hexDigitChar (d : Nat) (h : d < 16) : hexVal (hexDigitChar d) = some d := by
  interval_cases d <;> rfl

theorem escapeChar_length_pos (c : Char) : 1 ≤ (escapeChar c).length := by
  unfold escapeChar
  split_ifs <;> simp

theorem readStringChar_escape (c : Char) (rest : List Char) :
    readStringChar (escapeChar c ++ rest) = some (some c, rest) := by
  by_cases hq : c = '"'
  · subst hq; rfl
  · by_cases hb : c = '\\'
    · subst hb; rfl
    · by_cases hctl : c.toNat < 32
      · have e : escapeChar c =
            if c.toNat = 8 then ['\\', 'b']
            else if c.toNat = 9 then ['\\', 't']
            else if c.toNat = 10 then ['\\', 'n']
            else if c.toNat = 12 then ['\\', 'f']
            else if c.toNat = 13 then ['\\', 'r']
            else ['\\', 'u', '0', '0', hexDigitChar (c.toNat / 16), hexDigitChar (c.toNat % 16)] := by
          unfold escapeChar
          rw [if_neg hq, if_neg hb, if_pos hctl]
        have hofNat : Char.ofNat c.toNat = c := Char.ofNat_toNat c
        by_cases h8 : c.toNat = 8
        · rw [e, if_pos h8]
          show readEscape ('b' :: rest) = _
          have hred : readEscape ('b' :: rest) = some (some (Char.ofNat 8), rest) := rfl
          rw [hred, ← h8, hofNat]
        · by_cases h9 : c.toNat = 9
          · rw [e, if_neg h8, if_pos h9]
            show readEscape ('t' :: rest) = _
            have hred : readEscape ('t' :: rest) = some (some (Char.ofNat 9), rest) := rfl
            rw [hred, ← h9, hofNat]
          · by_cases h10 : c.toNat = 10
            · rw [e, if_neg h8, if_neg h9, if_pos h10]
              show readEscape ('n' :: rest) = _
              have hred : readEscape ('n' :: rest) = some (some (Char.ofNat 10), rest) := rfl
              rw [hred, ← h10, hofNat]
            · by_cases h12 : c.toNat = 12
              · rw [e, if_neg h8, if_neg h9, if_neg h10, if_pos h12]
                show readEscape ('f' :: rest) = _
                have hred : readEscape ('f' :: rest) = some (some (Char.ofNat 12), rest) := rfl
                rw [hred, ← h12, hofNat]
              · by_cases h13 : c.toNat = 13
                · rw [e, if_neg h8, if_neg h9, if_neg h10, if_neg h12, if_pos h13]
                  show readEscape ('r' :: rest) = _
                  have hred : readEscape ('r' :: rest) = some (some (Char.ofNat 13), rest) := rfl
                  rw [hred, ← h13, hofNat]
                · rw [e, if_neg h8, if_neg h9, if_neg h10, if_neg h12, if_neg h13]
                  show readEscape ('u' :: '0' :: '0' ::
                      hexDigitChar (c.toNat / 16) :: hexDigitChar (c.toNat % 16) :: rest) = _
                  have hstep : ∀ l : List Char, readEscape ('u' :: l) = readHex4 l := by
                    intro l
                    rfl
                  rw [hstep]
                  rw [readHex4]
                  have h0 : hexVal '0' = some 0 := rfl
                  rw [h0, hexVal_hexDigitChar (c.toNat / 16) (by omega),
                      hexVal_hexDigitChar (c.toNat % 16) (by omega)]
                  simp only
                  have hn : 4096 * 0 + 256 * 0 + 16 * (c.toNat / 16) + c.toNat % 16 = c.toNat := by
                    omega
                  rw [hn, if_pos (by left; omega), hofNat]
      · have e : escapeChar c = [c] := by
          unfold escapeChar
          rw [if_neg hq, if_neg hb, if_neg hctl]
        rw [e]
        show readStringChar (c :: rest) = _
        rw [readStringChar]
        rw [if_neg hq, if_neg hb, if_neg hctl]

theorem parseStringLoop_escape (l : List Char) :
    ∀ fuel rest, (escapeChars l).length + 1 ≤ fuel →
      parseStringLoop fuel (escapeChars l ++ '"' :: rest) = some (l, rest) := by
  induction l with
  | nil =>
      intro fuel rest hfuel
      obtain ⟨f, rfl⟩ : ∃ f, fuel = f + 1 := by
        cases fuel with
        | zero => omega
        | succ f => exact ⟨f, rfl⟩
      show parseStringLoop (f + 1) ('"' :: rest) = _
      rw [parseStringLoop]
      rfl
  | cons c l ih =>
      intro fuel rest hfuel
      have hl : escapeChars (c :: l) = escapeChar c ++ escapeChars l := by
        simp [escapeChars]
      rw [hl] at hfuel ⊢
      rw [List.length_append] at hfuel
      have hc1 : 1 ≤ (escapeChar c).length := escapeChar_length_pos c
      obtain ⟨f, rfl⟩ : ∃ f, fuel = f + 1 := by
        cases fuel with
        | zero => omega
        | succ f => exact ⟨f, rfl⟩
      rw [List.append_assoc]
      obtain ⟨b, bs, hcons⟩ :
          ∃ b bs, escapeChar c ++ (escapeChars l ++ '"' :: rest) = b :: bs := by
        cases h : escapeChar c ++ (escapeChars l ++ '"' :: rest) with
        | nil =>
            exfalso
            have := congrArg List.length h
            rw [List.length_append] at this
            simp at this
        | cons b bs => exact ⟨b, bs, rfl⟩
      rw [hcons, parseStringLoop, ← hcons, readStringChar_escape]
      show Option.map (fun p => (c :: p.1, p.2))
          (parseStringLoop f (escapeChars l ++ '"' :: rest)) = _
      rw [ih f rest (by omega)]
      rfl

theorem parseStringLit_quote (s : String) (rest : List Char) :
    parseStringLit (quoteString s ++ rest) = some (s, rest) := by
  rw [quoteString, List.cons_append, parseStringLit, if_pos rfl]
  simp only [List.append_assoc, List.singleton_append, escapeString]
  rw [parseStringLoop_escape s.data _ rest (by
    simp only [List.length_append, List.length_cons]
    omega)]
  rfl

theorem some_bind_eq {α β : Type} (a : α) (f : α → Option β) : (some a).bind f = f a := rfl

theorem dropLit_self : ∀ (pat rest : List Char), dropLit pat (pat ++ rest) = some rest := by
  intro pat
  induction pat with
  | nil => intro rest; rfl
  | cons p ps ih =>
      intro rest
      rw [List.cons_append, dropLit, if_pos rfl]
      exact ih rest

theorem head_not_digit (c0 : Char) (rest : List Char) (h : isDigit10 c0 = false) :
    ∀ c, (c0 :: rest).head? = some c → isDigit10 c = false := by
  intro c hc
  simp only [List.head?_cons, Option.some.injEq] at hc
  rw [← hc]
  exact h

theorem parseReviewObj_print (r : Review) (rest : List Char) :
    parseReviewObj (stringifyReview r ++ rest) = some (r, rest) := by
  rcases r with ⟨name, text, rating, date⟩
  cases date with
  | none =>
      have hshape : stringifyReview ⟨name, text, rating, none⟩ ++ rest
          = (lbrace :: "\"name\":".data) ++ (quoteString name
            ++ (",\"text\":".data ++ (quoteString text
            ++ (",\"rating\":".data ++ (printInt rating ++ (rbrace :: rest)))))) := by
        simp [stringifyReview, List.append_assoc]
      rw [hshape]
      simp only [parseReviewObj]
      rw [dropLit_self]
      simp only [some_bind_eq]
      rw [parseStringLit_quote]
      simp only [some_bind_eq]
      rw [dropLit_self]
      simp only [some_bind_eq]
      rw [parseStringLit_quote]
      simp only [some_bind_eq]
      rw [dropLit_self]
      simp only [some_bind_eq]
      rw [parseInt_print rating _ (head_not_digit rbrace rest rfl)]
      simp only [some_bind_eq]
      rw [parseObjEnd, if_pos rfl]
  | some d =>
      have hshape : stringifyReview ⟨name, text, rating, some d⟩ ++ rest
          = (lbrace :: "\"name\":".data) ++ (quoteString name
            ++ (",\"text\":".data ++ (quoteString text
            ++ (",\"rating\":".data ++ (printInt rating ++ (',' ::
              ("\"date\":".data ++ (quoteString d ++ (rbrace :: rest))))))))) := by
        simp [stringifyReview, List.append_assoc]
      rw [hshape]
      simp only [parseReviewObj]
      rw [dropLit_self]
      simp only [some_bind_eq]
      rw [parseStringLit_quote]
      simp only [some_bind_eq]
      rw [dropLit_self]
      simp only [some_bind_eq]
      rw [parseStringLit_quote]
      simp only [some_bind_eq]
      rw [dropLit_self]
      simp only [some_bind_eq]
      rw [parseInt_print rating _ (head_not_digit ',' _ rfl)]
      simp only [some_bind_eq]
      rw [parseObjEnd]
      rw [if_neg (by decide), if_pos rfl]
      rw [dropLit_self]
      simp only [some_bind_eq]
      rw [parseStringLit_quote]
      simp only [some_bind_eq]
      rw [parseObjClose, if_pos rfl]

theorem stringifyReview_length_pos (r : Review) : 1 ≤ (stringifyReview r).length := by
  rw [stringifyReview]
  simp

theorem stringifyReviewItems_length :
    ∀ rs : List Review, rs.length ≤ (stringifyReviewItems rs).length := by
  intro rs
  induction rs with
  | nil => simp [stringifyReviewItems]
  | cons r rs ih =>
      cases rs with
      | nil =>
          have h := stringifyReview_length_pos r
          simp only [stringifyReviewItems]
          simpa using h
      | cons r2 rs' =>
          have h := stringifyReview_length_pos r
          rw [stringifyReviewItems]
          simp only [List.length_append, List.length_cons]
          simp only [List.length_cons] at ih ⊢
          omega

theorem parseItemsLoop_print (rs : List Review) :
    ∀ (r : Review) (fuel : Nat) (rest : List Char), rs.length + 1 ≤ fuel →
      parseItemsLoop fuel (stringifyReviewItems (r :: rs) ++ ']' :: rest)
        = some (r :: rs, rest) := by
  induction rs with
  | nil =>
      intro r fuel rest hfuel
      obtain ⟨f, rfl⟩ : ∃ f, fuel = f + 1 := by
        cases fuel with
        | zero => omega
        | succ f => exact ⟨f, rfl⟩
      have hitems : stringifyReviewItems [r] = stringifyReview r := rfl
      rw [hitems, parseItemsLoop, parseReviewObj_print]
      simp only [some_bind_eq]
      rfl
  | cons r2 rs' ih =>
      intro r fuel rest hfuel
      obtain ⟨f, rfl⟩ : ∃ f, fuel = f + 1 := by
        cases fuel with
        | zero => omega
        | succ f => exact ⟨f, rfl⟩
      have hitems : stringifyReviewItems (r :: r2 :: rs')
          = stringifyReview r ++ ',' :: stringifyReviewItems (r2 :: rs') := rfl
      rw [hitems, List.append_assoc, List.cons_append, parseItemsLoop, parseReviewObj_print]
      simp only [some_bind_eq]
      have hstep : parseItemsStep r (parseItemsLoop f)
          (',' :: (stringifyReviewItems (r2 :: rs') ++ ']' :: rest))
          = (parseItemsLoop f (stringifyReviewItems (r2 :: rs') ++ ']' :: rest)).map
              (fun q => (r :: q.1, q.2)) := rfl
      rw [hstep, ih r2 f rest (by simp only [List.length_cons] at hfuel ⊢; omega)]
      rfl

theorem parseReviews_stringify (rs : List Review) :
    parseReviews (String.mk (stringifyReviews rs)) = some rs := by
  cases rs with
  | nil => rfl
  | cons r rs' =>
      obtain ⟨t, ht⟩ : ∃ t, stringifyReview r = lbrace :: t := ⟨_, rfl⟩
      have hdata : (String.mk (stringifyReviews (r :: rs'))).data
          = '[' :: (stringifyReviewItems (r :: rs') ++ [']']) := rfl
      obtain ⟨Y, hY⟩ : ∃ Y, stringifyReviewItems (r :: rs') ++ [']'] = lbrace :: Y := by
        cases rs' with
        | nil =>
            refine ⟨t ++ [']'], ?_⟩
            have : stringifyReviewItems [r] = stringifyReview r := rfl
            rw [this, ht, List.cons_append]
        | cons r2 rs'' =>
            refine ⟨(t ++ ',' :: stringifyReviewItems (r2 :: rs'')) ++ [']'], ?_⟩
            have : stringifyReviewItems (r :: r2 :: rs'')
                = stringifyReview r ++ ',' :: stringifyReviewItems (r2 :: rs'') := rfl
            rw [this, ht, List.cons_append, List.cons_append]
      have hred : parseReviews (String.mk ('[' :: lbrace :: Y))
          = (match parseItemsLoop ((lbrace :: Y).length + 1) (lbrace :: Y) with
             | some (rs, []) => some rs
             | _ => none) := rfl
      have hgoal : String.mk (stringifyReviews (r :: rs'))
          = String.mk ('[' :: lbrace :: Y) := by
        rw [stringifyReviews, hY]
      rw [hgoal, hred, ← hY]
      have h2 := congrArg List.length hY
      simp only [List.length_append, List.length_cons, List.length_nil] at h2
      have h1 := stringifyReviewItems_length (r :: rs')
      simp only [List.length_cons] at h1
      rw [show stringifyReviewItems (r :: rs') ++ [']']
            = stringifyReviewItems (r :: rs') ++ ']' :: [] from rfl]
      rw [parseItemsLoop_print rs' r _ [] (by
        simp only [List.length_append, List.length_cons, List.length_nil]
        omega)]

/-- Round trip of the KV codec on any review collection. -/
theorem getJsonUtf8_putJsonUtf8 (rs : List Review) :
    getJsonUtf8 (some (putJsonUtf8 rs)) = .ok (some rs) := by
  rw [putJsonUtf8]
  show (match utf8Decode (utf8Encode (String.mk (stringifyReviews rs))) with
    | none => Except.error ()
    | some s =>
      match parseReviews s with
      | some rs2 => Except.ok (some rs2)
      | none => Except.error ()) = _
  rw [utf8Decode_utf8Encode]
  show (match parseReviews (String.mk (stringifyReviews rs)) with
    | some rs2 => Except.ok (some rs2)
    | none => Except.error ()) = _
  rw [parseReviews_stringify]

/-! ## Handler-level lemmas -/

theorem strFalsy_some (s : String) (h : ¬ s = "") : strFalsy (some s) = false := by
  simp [strFalsy, h]

theorem jsToLower_empty : jsToLower "" = "" := rfl

theorem jsToLower_ne_empty (q : String) (h : ¬ q = "") : ¬ jsToLower q = "" := by
  rcases q with ⟨data⟩
  intro hl
  apply h
  have hd : data.map Char.toLower = ("" : String).data := congrArg String.data hl
  have hlen := congrArg List.length hd
  simp only [List.length_map] at hlen
  have hnil : data = [] := List.eq_nil_of_length_eq_zero hlen
  rw [hnil]

theorem filter_keep_of_imp {α : Type} (p keep : α → Bool) (l : List α)
    (h : ∀ a ∈ l, p a = true → keep a = true) :
    (l.filter keep).filter p = l.filter p := by
  rw [List.filter_filter]
  apply List.filter_congr
  intro a ha
  by_cases hp : p a = true
  · rw [hp, h a ha hp]
    rfl
  · have hfalse : p a = false := by revert hp; cases p a <;> simp
    rw [hfalse]
    simp

theorem handleGet_crash (kv : KVState) (h : getJsonUtf8 kv = .error ()) :
    handleGetReviews kv = Outcome.crash kv := by
  unfold handleGetReviews
  rw [h]

theorem handleGet_seeds_absent : handleGetReviews none
    = .resp ⟨200, .okReviews seed⟩ (some (putJsonUtf8 seed)) true := rfl

theorem handleGet_ok_none (kv : KVState) (h : getJsonUtf8 kv = .ok none) :
    handleGetReviews kv = .resp ⟨200, .okReviews seed⟩ (some (putJsonUtf8 seed)) true := by
  unfold handleGetReviews
  rw [h]

theorem handleGet_seeds_empty (kv : KVState) (h : getJsonUtf8 kv = .ok (some [])) :
    handleGetReviews kv = .resp ⟨200, .okReviews seed⟩ (some (putJsonUtf8 seed)) true := by
  unfold handleGetReviews
  rw [h]
  rfl

theorem handleGet_stored (kv : KVState) (rs : List Review)
    (h : getJsonUtf8 kv = .ok (some rs)) (hne : rs.length ≠ 0) :
    handleGetReviews kv = .resp ⟨200, .okReviews rs⟩ kv false := by
  unfold handleGetReviews
  rw [h]
  show (if rs.length = 0 then _ else _) = _
  rw [if_neg hne]

theorem handleGetReviews_crash_iff (kv s : KVState) :
    handleGetReviews kv = Outcome.crash s ↔ (getJsonUtf8 kv = .error () ∧ s = kv) := by
  cases hg : getJsonUtf8 kv with
  | error e =>
      cases e
      rw [handleGet_crash kv hg]
      constructor
      · intro h
        cases h
        exact ⟨rfl, rfl⟩
      · rintro ⟨-, rfl⟩
        rfl
  | ok st =>
      cases st with
      | none =>
          rw [handleGet_ok_none kv hg]
          constructor
          · intro h
            cases h
          · rintro ⟨h1, -⟩
            cases h1
      | some rs =>
          by_cases hlen : rs.length = 0
          · have hnil : rs = [] := List.eq_nil_of_length_eq_zero hlen
            subst hnil
            rw [handleGet_seeds_empty kv hg]
            constructor
            · intro h
              cases h
            · rintro ⟨h1, -⟩
              cases h1
          · rw [handleGet_stored kv rs hg hlen]
            constructor
            · intro h
              cases h
            · rintro ⟨h1, -⟩
              cases h1

theorem handlePost_success (now n t : String) (br : Option Int) (bd : Option String)
    (kv : KVState) (st : Option (List Review))
    (hn : ¬ n = "") (ht : ¬ t = "") (hread : getJsonUtf8 kv = .ok st) :
    handlePostReview now (some ⟨some n, some t, br, bd⟩) kv
      = .resp ⟨200, .okReview ⟨n, t, br.getD 5, some now⟩⟩
          (some (putJsonUtf8 (⟨n, t, br.getD 5, some now⟩ :: st.getD []))) true := by
  have hcond : (strFalsy (some n) || strFalsy (some t)) = false := by
    rw [strFalsy_some n hn, strFalsy_some t ht]
    rfl
  show (if strFalsy (some n) || strFalsy (some t) then
      Outcome.resp ⟨400, .errEnvelope "Missing name or text"⟩ kv false
    else
      match getJsonUtf8 kv with
      | .error _ => Outcome.resp ⟨500, .errEnvelope "Server error"⟩ kv false
      | .ok stored =>
        Outcome.resp ⟨200, .okReview ⟨n, t, br.getD 5, some now⟩⟩
          (some (putJsonUtf8 (⟨n, t, br.getD 5, some now⟩ :: stored.getD []))) true) = _
  rw [hcond]
  show (match getJsonUtf8 kv with
      | .error _ => Outcome.resp ⟨500, .errEnvelope "Server error"⟩ kv false
      | .ok stored =>
        Outcome.resp ⟨200, .okReview ⟨n, t, br.getD 5, some now⟩⟩
          (some (putJsonUtf8 (⟨n, t, br.getD 5, some now⟩ :: stored.getD []))) true) = _
  rw [hread]

theorem handlePostReview_ne_crash (now : String) (body : Option BodyFields)
    (kv s : KVState) : handlePostReview now body kv ≠ Outcome.crash s := by
  rcases body with _ | b
  · exact fun h => nomatch h
  · simp only [handlePostReview]
    split
    · exact fun h => nomatch h
    · split
      · exact fun h => nomatch h
      · exact fun h => nomatch h

theorem handleDelete_eq (q : String) (bt : Option String) (br : Option Int)
    (bd : Option String) (kv : KVState) (hne : ¬ q = "") :
    handleDeleteReview (some ⟨some q, bt, br, bd⟩) kv
      = match getJsonUtf8 kv with
        | .error _ => Outcome.resp ⟨500, .errEnvelope "SyntaxError"⟩ kv false
        | .ok stored =>
          if ((stored.getD []).filter (deleteKeep q)).length = (stored.getD []).length then
            Outcome.resp ⟨404, .errEnvelope ("No reviews found for " ++ q)⟩ kv false
          else
            Outcome.resp ⟨200, .okMessage ("Deleted "
                ++ toString ((stored.getD []).length
                    - ((stored.getD []).filter (deleteKeep q)).length)
                ++ " review(s) for " ++ q)⟩
              (some (putJsonUtf8 ((stored.getD []).filter (deleteKeep q)))) true := by
  show (if q = "" then Outcome.resp ⟨400, .errEnvelope "Missing name field"⟩ kv false
    else
      match getJsonUtf8 kv with
      | .error _ => Outcome.resp ⟨500, .errEnvelope "SyntaxError"⟩ kv false
      | .ok stored =>
        if ((stored.getD []).filter (deleteKeep q)).length = (stored.getD []).length then
          Outcome.resp ⟨404, .errEnvelope ("No reviews found for " ++ q)⟩ kv false
        else
          Outcome.resp ⟨200, .okMessage ("Deleted "
              ++ toString ((stored.getD []).length
                  - ((stored.getD []).filter (deleteKeep q)).length)
              ++ " review(s) for " ++ q)⟩
            (some (putJsonUtf8 ((stored.getD []).filter (deleteKeep q)))) true) = _
  rw [if_neg hne]

theorem handleDelete_nomatch (q : String) (bt : Option String) (br : Option Int)
    (bd : Option String) (kv : KVState) (st : Option (List Review))
    (hne : ¬ q = "") (hread : getJsonUtf8 kv = .ok st)
    (hlen : ((st.getD []).filter (deleteKeep q)).length = (st.getD []).length) :
    handleDeleteReview (some ⟨some q, bt, br, bd⟩) kv
      = .resp ⟨404, .errEnvelope ("No reviews found for " ++ q)⟩ kv false := by
  rw [handleDelete_eq q bt br bd kv hne, hread]
  show (if ((st.getD []).filter (deleteKeep q)).length = (st.getD []).length then _ else _) = _
  rw [if_pos hlen]

theorem handleDelete_match (q : String) (bt : Option String) (br : Option Int)
    (bd : Option String) (kv : KVState) (st : Option (List Review))
    (hne : ¬ q = "") (hread : getJsonUtf8 kv = .ok st)
    (hlen : ((st.getD []).filter (deleteKeep q)).length ≠ (st.getD []).length) :
    handleDeleteReview (some ⟨some q, bt, br, bd⟩) kv
      = .resp ⟨200, .okMessage ("Deleted "
          ++ toString ((st.getD []).length - ((st.getD []).filter (deleteKeep q)).length)
          ++ " review(s) for " ++ q)⟩
        (some (putJsonUtf8 ((st.getD []).filter (deleteKeep q)))) true := by
  rw [handleDelete_eq q bt br bd kv hne, hread]
  show (if ((st.getD []).filter (deleteKeep q)).length = (st.getD []).length then _ else _) = _
  rw [if_neg hlen]

theorem handleDeleteReview_ne_crash (body : Option BodyFields) (kv s : KVState) :
    handleDeleteReview body kv ≠ Outcome.crash s := by
  rcases body with _ | ⟨bn, bt, br, bd⟩
  · exact fun h => nomatch h
  · cases bn with
    | none => exact fun h => nomatch h
    | some q =>
        simp only [handleDeleteReview]
        split
        · exact fun h => nomatch h
        · split
          · exact fun h => nomatch h
          · split
            · exact fun h => nomatch h
            · exact fun h => nomatch h

theorem delete_length_match_iff (q : String) (rs : List Review) :
    (rs.filter (deleteKeep q)).length ≠ rs.length
      ↔ ∃ r ∈ rs, jsToLower r.name = jsToLower q := by
  have hle := List.length_filter_le (deleteKeep q) rs
  constructor
  · intro h
    have hlt : (rs.filter (deleteKeep q)).length < rs.length := by omega
    obtain ⟨r, hr, hp⟩ := List.length_filter_lt_length_iff_exists.mp hlt
    refine ⟨r, hr, ?_⟩
    simp only [deleteKeep, bne_iff_ne, ne_eq, not_not] at hp
    exact hp
  · rintro ⟨r, hr, heq⟩
    have hlt : (rs.filter (deleteKeep q)).length < rs.length := by
      apply List.length_filter_lt_length_iff_exists.mpr
      refine ⟨r, hr, ?_⟩
      simp [deleteKeep, heq]
    omega

theorem storeReviews_put (rs : List Review) :
    storeReviews (some (putJsonUtf8 rs)) = some rs := by
  unfold storeReviews
  rw [getJsonUtf8_putJsonUtf8]
  rfl

/-! ## Claims -/

/-- C1 counterexample: the claim says a malformed stored blob makes
List() reseed and return the seed records; on the blob `"xx"` (bytes
120,120 — not JSON) `handleGetReviews` instead lets the parse failure
escape as a crash and does not return the seeded response. -/
theorem c1_counterexample :
    handleGetReviews (some [120, 120]) = Outcome.crash (some [120, 120])
    ∧ ¬ handleGetReviews (some [120, 120])
        = .resp ⟨200, .okReviews seed⟩ (some (putJsonUtf8 seed)) true := by
  refine ⟨rfl, ?_⟩
  intro h
  have h1 : handleGetReviews (some [120, 120]) = Outcome.crash (some [120, 120]) := rfl
  rw [h1] at h
  cases h

/-- C1 (amended): for every stored blob on which the decode fails,
List() propagates the failure out of the handler as an uncaught
exception — it does not treat the collection as absent, does not
reseed, and performs no write (the store is left unchanged). -/
theorem c1_decode_failure_propagates (raw : List Nat)
    (h : getJsonUtf8 (some raw) = .error ()) :
    handleGetReviews (some raw) = Outcome.crash (some raw) :=
  handleGet_crash (some raw) h

/-- C1 witness: the amended theorem applied to the malformed blob
`"xx"`. -/
theorem c1_witness :
    handleGetReviews (some [120, 120]) = Outcome.crash (some [120, 120]) :=
  c1_decode_failure_propagates [120, 120] rfl

/-- C2 counterexample: the claim says no failure ever escapes the fetch
entrypoint; a GET `/reviews` over a malformed stored blob crashes
instead of producing an error envelope. -/
theorem c2_counterexample :
    fetchModel "T" (Except.ok (200, "ok")) ⟨"GET", "/reviews", none⟩ (some [120, 120])
      = Outcome.crash (some [120, 120]) := rfl

/-- C2 (amended): failures in the Append, DeleteByName and proxy paths
are caught and returned as responses, but a store decode failure during
List() escapes `fetch` uncaught — an outcome of `fetch` is a crash
exactly when the request is GET `/reviews` and the stored blob fails to
decode. -/
theorem c2_crash_only_list_decode (now : String) (upstream : Upstream)
    (req : ReqModel) (kv : KVState) :
    (∃ s, fetchModel now upstream req kv = Outcome.crash s)
      ↔ (req.method = "GET" ∧ req.path = "/reviews" ∧ getJsonUtf8 kv = .error ()) := by
  unfold fetchModel
  by_cases h1 : req.method = "OPTIONS"
  · rw [if_pos h1]
    constructor
    · rintro ⟨s, hs⟩
      cases hs
    · rintro ⟨hm, -, -⟩
      rw [hm] at h1
      exact absurd h1 (by decide)
  · rw [if_neg h1]
    by_cases h2 : req.method = "GET" ∧ req.path = "/"
    · rw [if_pos h2]
      constructor
      · rintro ⟨s, hs⟩
        cases hs
      · rintro ⟨-, hp, -⟩
        rw [hp] at h2
        exact absurd h2.2 (by decide)
    · rw [if_neg h2]
      by_cases h3 : req.path = "/reviews" ∧ req.method = "DELETE"
      · rw [if_pos h3]
        constructor
        · rintro ⟨s, hs⟩
          exact absurd hs (handleDeleteReview_ne_crash _ _ _)
        · rintro ⟨hm, -, -⟩
          have hd := h3.2
          rw [hm] at hd
          exact absurd hd (by decide)
      · rw [if_neg h3]
        by_cases h4 : req.path = "/reviews" ∧ req.method = "GET"
        · rw [if_pos h4]
          constructor
          · rintro ⟨s, hs⟩
            obtain ⟨herr, -⟩ := (handleGetReviews_crash_iff kv s).mp hs
            exact ⟨h4.2, h4.1, herr⟩
          · rintro ⟨-, -, herr⟩
            exact ⟨kv, (handleGetReviews_crash_iff kv kv).mpr ⟨herr, rfl⟩⟩
        · rw [if_neg h4]
          by_cases h5 : req.path = "/reviews" ∧ req.method = "POST"
          · rw [if_pos h5]
            constructor
            · rintro ⟨s, hs⟩
              exact absurd hs (handlePostReview_ne_crash _ _ _ _)
            · rintro ⟨hm, hp, -⟩
              exact absurd ⟨hp, hm⟩ h4
          · rw [if_neg h5]
            by_cases h6 : req.method = "POST"
            · rw [if_pos h6]
              constructor
              · rintro ⟨s, hs⟩
                cases upstream with
                | ok p => cases hs
                | error m => cases hs
              · rintro ⟨hm, hp, -⟩
                exact absurd ⟨hp, hm⟩ h4
            · rw [if_neg h6]
              constructor
              · rintro ⟨s, hs⟩
                cases hs
              · rintro ⟨hm, hp, -⟩
                exact absurd ⟨hp, hm⟩ h4

/-- C2 witness: the amended characterization applied to a GET
`/reviews` request over the malformed blob `"yy"`. -/
theorem c2_witness :
    ∃ s, fetchModel "T" (Except.ok (200, "ok")) ⟨"GET", "/reviews", none⟩ (some [121, 121])
      = Outcome.crash s :=
  (c2_crash_only_list_decode "T" (Except.ok (200, "ok"))
    ⟨"GET", "/reviews", none⟩ (some [121, 121])).mpr ⟨rfl, rfl, rfl⟩

/-- C3: on an absent or empty collection, List() persists and returns
exactly the three seed records (one named "Jennifer D." rated 5, two
with empty names rated 5, none with a date), and an immediately
following List() returns the same three records without writing
again. -/
theorem c3_list_seeding (kv : KVState)
    (h : kv = none ∨ getJsonUtf8 kv = .ok (some [])) :
    handleGetReviews kv = .resp ⟨200, .okReviews seed⟩ (some (putJsonUtf8 seed)) true
    ∧ handleGetReviews (some (putJsonUtf8 seed))
        = .resp ⟨200, .okReviews seed⟩ (some (putJsonUtf8 seed)) false
    ∧ seed.length = 3
    ∧ seed.map Review.name = ["Jennifer D.", "", ""]
    ∧ (∀ r ∈ seed, r.rating = 5 ∧ r.date = none) := by
  refine ⟨?_, ?_, rfl, rfl, by decide⟩
  · rcases h with rfl | h
    · rfl
    · exact handleGet_seeds_empty kv h
  · exact handleGet_stored (some (putJsonUtf8 seed)) seed
      (getJsonUtf8_putJsonUtf8 seed) (by decide)

/-- C3 witness: the theorem applied to the absent store. -/
theorem c3_witness :
    handleGetReviews none = .resp ⟨200, .okReviews seed⟩ (some (putJsonUtf8 seed)) true
    ∧ handleGetReviews (some (putJsonUtf8 seed))
        = .resp ⟨200, .okReviews seed⟩ (some (putJsonUtf8 seed)) false
    ∧ seed.length = 3
    ∧ seed.map Review.name = ["Jennifer D.", "", ""]
    ∧ (∀ r ∈ seed, r.rating = 5 ∧ r.date = none) :=
  c3_list_seeding none (Or.inl rfl)

/-- C4: for every Append input with non-empty name and text, the
created record carries `date = now` (the server clock value,
overwriting any client-supplied date `bd`), rating defaulted to 5 when
absent, is prepended at position 0 of the collection read from the
store (absent treated as empty), the full updated collection is
persisted, and the new record is returned; the persisted blob decodes
to the new record followed by the previous records. -/
theorem c4_append_behavior (now n t : String) (br : Option Int) (bd : Option String)
    (kv : KVState) (st : Option (List Review))
    (hn : ¬ n = "") (ht : ¬ t = "") (hread : getJsonUtf8 kv = .ok st) :
    handlePostReview now (some ⟨some n, some t, br, bd⟩) kv
      = .resp ⟨200, .okReview ⟨n, t, br.getD 5, some now⟩⟩
          (some (putJsonUtf8 (⟨n, t, br.getD 5, some now⟩ :: st.getD []))) true
    ∧ storeReviews (some (putJsonUtf8 (⟨n, t, br.getD 5, some now⟩ :: st.getD [])))
        = some (⟨n, t, br.getD 5, some now⟩ :: st.getD []) :=
  ⟨handlePost_success now n t br bd kv st hn ht hread, storeReviews_put _⟩

/-- C4 witness: a concrete Append over the empty store, with a
client-supplied date that is overwritten. -/
theorem c4_witness :
    handlePostReview "2026-10-12T00:00:00.000Z"
        (some ⟨some "A", some "hi", none, some "1999"⟩) none
      = .resp ⟨200, .okReview ⟨"A", "hi", 5, some "2026-10-12T00:00:00.000Z"⟩⟩
          (some (putJsonUtf8 [⟨"A", "hi", 5, some "2026-10-12T00:00:00.000Z"⟩])) true
    ∧ storeReviews (some (putJsonUtf8 [⟨"A", "hi", 5, some "2026-10-12T00:00:00.000Z"⟩]))
        = some [⟨"A", "hi", 5, some "2026-10-12T00:00:00.000Z"⟩] :=
  c4_append_behavior "2026-10-12T00:00:00.000Z" "A" "hi" none (some "1999") none none
    (by decide) (by decide) rfl

/-- C5: with a non-empty query that matches at least one record,
DeleteByName persists the collection filtered by the whole-string
lowercase comparison, reports the count removed, and a record survives
exactly when its lowercased name differs from the lowercased query. -/
theorem c5_delete_matching (q : String) (bt : Option String) (br : Option Int)
    (bd : Option String) (kv : KVState) (st : Option (List Review))
    (hne : ¬ q = "") (hread : getJsonUtf8 kv = .ok st)
    (hmatch : ∃ r ∈ st.getD [], jsToLower r.name = jsToLower q) :
    handleDeleteReview (some ⟨some q, bt, br, bd⟩) kv
      = .resp ⟨200, .okMessage ("Deleted "
          ++ toString ((st.getD []).length - ((st.getD []).filter (deleteKeep q)).length)
          ++ " review(s) for " ++ q)⟩
        (some (putJsonUtf8 ((st.getD []).filter (deleteKeep q)))) true
    ∧ (∀ r ∈ st.getD [], (r ∈ (st.getD []).filter (deleteKeep q)
          ↔ ¬ jsToLower r.name = jsToLower q)) := by
  have hlen := (delete_length_match_iff q (st.getD [])).mpr hmatch
  refine ⟨handleDelete_match q bt br bd kv st hne hread hlen, ?_⟩
  intro r hr
  rw [List.mem_filter]
  constructor
  · rintro ⟨-, hk⟩
    simpa [deleteKeep, bne_iff_ne] using hk
  · intro hne2
    refine ⟨hr, ?_⟩
    simp [deleteKeep, bne_iff_ne]
    exact hne2

/-- C5 witness: a record named "Jane" is removed by the query "JANE". -/
theorem c5_witness :
    handleDeleteReview (some ⟨some "JANE", none, none, none⟩)
        (some (putJsonUtf8 [⟨"Jane", "x", 5, none⟩]))
      = .resp ⟨200, .okMessage ("Deleted "
          ++ toString (([(⟨"Jane", "x", 5, none⟩ : Review)]).length
              - (([(⟨"Jane", "x", 5, none⟩ : Review)]).filter (deleteKeep "JANE")).length)
          ++ " review(s) for " ++ "JANE")⟩
        (some (putJsonUtf8 (([(⟨"Jane", "x", 5, none⟩ : Review)]).filter (deleteKeep "JANE")))) true
    ∧ (∀ r ∈ ([(⟨"Jane", "x", 5, none⟩ : Review)]),
        (r ∈ ([(⟨"Jane", "x", 5, none⟩ : Review)]).filter (deleteKeep "JANE")
          ↔ ¬ jsToLower r.name = jsToLower "JANE")) :=
  c5_delete_matching "JANE" none none none _ (some [⟨"Jane", "x", 5, none⟩])
    (by decide) (getJsonUtf8_putJsonUtf8 [⟨"Jane", "x", 5, none⟩]) (by decide)

/-- C6: with a non-empty query matching no record, DeleteByName returns
404 with the message "No reviews found for (name)", performs no write,
and leaves the store unchanged. -/
theorem c6_delete_nomatch (q : String) (bt : Option String) (br : Option Int)
    (bd : Option String) (kv : KVState) (st : Option (List Review))
    (hne : ¬ q = "") (hread : getJsonUtf8 kv = .ok st)
    (hnomatch : ∀ r ∈ st.getD [], ¬ jsToLower r.name = jsToLower q) :
    handleDeleteReview (some ⟨some q, bt, br, bd⟩) kv
      = .resp ⟨404, .errEnvelope ("No reviews found for " ++ q)⟩ kv false := by
  apply handleDelete_nomatch q bt br bd kv st hne hread
  have hall : (st.getD []).filter (deleteKeep q) = st.getD [] := by
    apply List.filter_eq_self.mpr
    intro r hr
    simp [deleteKeep, bne_iff_ne]
    exact hnomatch r hr
  rw [hall]

/-- C6 witness: the spec's concrete scenario — deleting "Nonexistent"
from a store holding only the three seed records yields 404 and no
write. -/
theorem c6_witness :
    handleDeleteReview (some ⟨some "Nonexistent", none, none, none⟩)
        (some (putJsonUtf8 seed))
      = .resp ⟨404, .errEnvelope ("No reviews found for " ++ "Nonexistent")⟩
          (some (putJsonUtf8 seed)) false :=
  c6_delete_nomatch "Nonexistent" none none none _ (some seed)
    (by decide) (getJsonUtf8_putJsonUtf8 seed) (by decide)

/-- C7: Append responds 400 exactly when the parsed body's name or text
is missing or empty (no other input constraint — any rating and any
text survive validation), and with rating absent the created record has
rating 5. -/
theorem c7_append_validation (now : String) (b : BodyFields) (kv : KVState) :
    ((handlePostReview now (some b) kv).statusOf = some 400
        ↔ (strFalsy b.name = true ∨ strFalsy b.text = true))
    ∧ (∀ (n t : String) (bd : Option String) (st : Option (List Review)),
        b = ⟨some n, some t, none, bd⟩ → ¬ n = "" → ¬ t = "" →
        getJsonUtf8 kv = .ok st →
        handlePostReview now (some b) kv
          = .resp ⟨200, .okReview ⟨n, t, 5, some now⟩⟩
              (some (putJsonUtf8 (⟨n, t, 5, some now⟩ :: st.getD []))) true) := by
  constructor
  · cases hc : strFalsy b.name || strFalsy b.text with
    | true =>
        have e : handlePostReview now (some b) kv
            = .resp ⟨400, .errEnvelope "Missing name or text"⟩ kv false := by
          show (if strFalsy b.name || strFalsy b.text then
              Outcome.resp ⟨400, .errEnvelope "Missing name or text"⟩ kv false
            else
              match getJsonUtf8 kv with
              | .error _ => Outcome.resp ⟨500, .errEnvelope "Server error"⟩ kv false
              | .ok stored =>
                Outcome.resp ⟨200, .okReview ⟨b.name.getD "", b.text.getD "",
                    b.rating.getD 5, some now⟩⟩
                  (some (putJsonUtf8 (⟨b.name.getD "", b.text.getD "",
                    b.rating.getD 5, some now⟩ :: stored.getD []))) true) = _
          rw [hc]
          rfl
        rw [e]
        constructor
        · intro _
          rw [Bool.or_eq_true] at hc
          exact hc
        · intro _
          rfl
    | false =>
        have e : handlePostReview now (some b) kv
            = match getJsonUtf8 kv with
              | .error _ => Outcome.resp ⟨500, .errEnvelope "Server error"⟩ kv false
              | .ok stored =>
                Outcome.resp ⟨200, .okReview ⟨b.name.getD "", b.text.getD "",
                    b.rating.getD 5, some now⟩⟩
                  (some (putJsonUtf8 (⟨b.name.getD "", b.text.getD "",
                    b.rating.getD 5, some now⟩ :: stored.getD []))) true := by
          show (if strFalsy b.name || strFalsy b.text then
              Outcome.resp ⟨400, .errEnvelope "Missing name or text"⟩ kv false
            else
              match getJsonUtf8 kv with
              | .error _ => Outcome.resp ⟨500, .errEnvelope "Server error"⟩ kv false
              | .ok stored =>
                Outcome.resp ⟨200, .okReview ⟨b.name.getD "", b.text.getD "",
                    b.rating.getD 5, some now⟩⟩
                  (some (putJsonUtf8 (⟨b.name.getD "", b.text.getD "",
                    b.rating.getD 5, some now⟩ :: stored.getD []))) true) = _
          rw [hc]
          rfl
        rw [e]
        constructor
        · intro h400
          exfalso
          cases hg : getJsonUtf8 kv with
          | error e2 =>
              rw [hg] at h400
              simp [Outcome.statusOf] at h400
          | ok st =>
              rw [hg] at h400
              simp [Outcome.statusOf] at h400
        · intro hor
          exfalso
          have : (strFalsy b.name || strFalsy b.text) = true := by
            rcases hor with h | h <;> simp [h]
          rw [hc] at this
          cases this
  · intro n t bd st hb hn ht hread
    subst hb
    exact handlePost_success now n t none bd kv st hn ht hread

/-- C7 witness: the rating-default clause applied to a concrete body
with no rating over the empty store. -/
theorem c7_witness :
    handlePostReview "T" (some ⟨some "A", some "hi", none, none⟩) none
      = .resp ⟨200, .okReview ⟨"A", "hi", 5, some "T"⟩⟩
          (some (putJsonUtf8 [⟨"A", "hi", 5, some "T"⟩])) true :=
  (c7_append_validation "T" ⟨some "A", some "hi", none, none⟩ none).2 "A" "hi" none none
    rfl (by decide) (by decide) rfl

/-- C8: round-trip identity of the KV codec — encoding any review
collection with putJsonUtf8 and decoding the bytes with getJsonUtf8
returns the identical collection (hence byte-for-byte identical
strings), for arbitrary Unicode contents including 4-byte scalars. -/
theorem c8_codec_roundtrip (rs : List Review) :
    getJsonUtf8 (some (putJsonUtf8 rs)) = Except.ok (some rs) :=
  getJsonUtf8_putJsonUtf8 rs

/-- C9: an empty or missing query name is rejected with 400 before any
store interaction (store untouched, even an undecodable one), and with
any accepted (non-empty) query the records whose name is empty — in
particular the two anonymous seed records — all survive in the store,
whatever the outcome. -/
theorem c9_empty_names_protected :
    (∀ (bt : Option String) (br : Option Int) (bd : Option String) (kv : KVState),
        handleDeleteReview (some ⟨none, bt, br, bd⟩) kv
          = .resp ⟨400, .errEnvelope "Missing name field"⟩ kv false
        ∧ handleDeleteReview (some ⟨some "", bt, br, bd⟩) kv
          = .resp ⟨400, .errEnvelope "Missing name field"⟩ kv false)
    ∧ (∀ (q : String) (bt : Option String) (br : Option Int) (bd : Option String)
        (kv : KVState) (st : Option (List Review)),
        ¬ q = "" → getJsonUtf8 kv = .ok st →
        ∃ rs', storeReviews ((handleDeleteReview (some ⟨some q, bt, br, bd⟩) kv).store)
            = some rs'
          ∧ rs'.filter (fun r => r.name == "")
              = (st.getD []).filter (fun r => r.name == "")) := by
  constructor
  · intro bt br bd kv
    exact ⟨rfl, rfl⟩
  · intro q bt br bd kv st hne hread
    by_cases hlen : ((st.getD []).filter (deleteKeep q)).length = (st.getD []).length
    · rw [handleDelete_nomatch q bt br bd kv st hne hread hlen]
      refine ⟨st.getD [], ?_, rfl⟩
      show storeReviews kv = _
      unfold storeReviews
      rw [hread]
    · rw [handleDelete_match q bt br bd kv st hne hread hlen]
      refine ⟨(st.getD []).filter (deleteKeep q), storeReviews_put _, ?_⟩
      apply filter_keep_of_imp
      intro r hr hname
      have hempty : r.name = "" := by
        simpa using hname
      simp [deleteKeep, hempty, bne_iff_ne, jsToLower_empty]
      exact fun hh => jsToLower_ne_empty q hne hh.symm

/-- C9 witness: the non-empty-query clause applied to a concrete query
over the empty store. -/
theorem c9_witness :
    ∃ rs', storeReviews ((handleDeleteReview
          (some ⟨some "x", none, none, none⟩) none).store) = some rs'
      ∧ rs'.filter (fun r => r.name == "")
          = ([] : List Review).filter (fun r => r.name == "") :=
  c9_empty_names_protected.2 "x" none none none none none (by decide) rfl

/-- C10: mutations preserve surviving records and their relative order —
the store after Append decodes to the new record followed by the
previous collection unchanged, and the store after DeleteByName decodes
to the filter of the previous collection (a sublist: only matches
removed, survivors untouched and in order). -/
theorem c10_order_preservation :
    (∀ (now n t : String) (br : Option Int) (bd : Option String) (kv : KVState)
        (st : Option (List Review)), ¬ n = "" → ¬ t = "" → getJsonUtf8 kv = .ok st →
        storeReviews ((handlePostReview now (some ⟨some n, some t, br, bd⟩) kv).store)
          = some (⟨n, t, br.getD 5, some now⟩ :: st.getD []))
    ∧ (∀ (q : String) (bt : Option String) (br : Option Int) (bd : Option String)
        (kv : KVState) (st : Option (List Review)), ¬ q = "" → getJsonUtf8 kv = .ok st →
        storeReviews ((handleDeleteReview (some ⟨some q, bt, br, bd⟩) kv).store)
          = some ((st.getD []).filter (deleteKeep q))
        ∧ ((st.getD []).filter (deleteKeep q)).Sublist (st.getD [])) := by
  constructor
  · intro now n t br bd kv st hn ht hread
    rw [handlePost_success now n t br bd kv st hn ht hread]
    show storeReviews (some (putJsonUtf8 (⟨n, t, br.getD 5, some now⟩ :: st.getD []))) = _
    exact storeReviews_put _
  · intro q bt br bd kv st hne hread
    refine ⟨?_, List.filter_sublist _⟩
    by_cases hlen : ((st.getD []).filter (deleteKeep q)).length = (st.getD []).length
    · rw [handleDelete_nomatch q bt br bd kv st hne hread hlen]
      show storeReviews kv = _
      unfold storeReviews
      rw [hread]
      have hall : (st.getD []).filter (deleteKeep q) = st.getD [] :=
        (List.filter_sublist _).eq_of_length hlen
      rw [hall]
    · rw [handleDelete_match q bt br bd kv st hne hread hlen]
      show storeReviews (some (putJsonUtf8 ((st.getD []).filter (deleteKeep q)))) = _
      exact storeReviews_put _

/-- C10 witness: the Append clause applied to a concrete record over
the empty store. -/
theorem c10_witness :
    storeReviews ((handlePostReview "T"
        (some ⟨some "A", some "hi", some 4, none⟩) none).store)
      = some [⟨"A", "hi", 4, some "T"⟩] :=
  c10_order_preservation.1 "T" "A" "hi" (some 4) none none none
    (by decide) (by decide) rfl

end GhAiProxy
